import Mathlib

/-!
Shallow embedding of the `hashcow` crate (src/lib.rs): a copy-on-write
hash map `CowHashMap` wrapping `HashMap<Cow<K>, Cow<V>>`.

Modelling choices:
* A `Cow` is a tagged value, `borrowed` or `owned`; in Rust both tags
  dereference to the same content type, so the model stores the content
  directly in both constructors and `Cow.as_ref` projects it.
* The backing `hashbrown::HashMap` is modelled as an association list of
  slots `Cow K × Cow V`.  Hash-map key equality on `Cow<K>` compares the
  dereferenced contents (Rust derives `Eq` on `Cow` through `Deref`), so
  slot lookup compares `Cow.val` of the stored key with the probe key.
  `HashMap::insert` on an existing key keeps the stored key and replaces
  only the value, returning the old value; on a fresh key it adds a slot.
* Methods taking `&mut self` are embedded in state-passing style,
  returning the produced value together with the updated map.  Methods
  taking `&self` are pure functions of the map, so the guarantee that
  they leave the receiver unmodified holds by construction.
-/

namespace Hashcow

/-- Form of a map entry, either borrowed or owned (enum `Form` in the
source, lines 10-16). -/
inductive Form where
  | Borrowed
  | Owned
  deriving DecidableEq, Repr

/-- Model of `std::borrow::Cow`: a tagged slot holding either a borrowed
reference to content or an owned copy of content. -/
inductive Cow (α : Type) where
  | borrowed (v : α)
  | owned (v : α)
  deriving DecidableEq, Repr

namespace Cow

/-- Content of a `Cow`, the result of dereferencing it (`Cow::as_ref` /
`Borrow::borrow` both yield this). -/
def val {α : Type} : Cow α → α
  | .borrowed v => v
  | .owned v => v

/-- Model of `Cow::as_ref`: a shared view of the content. -/
def as_ref {α : Type} (c : Cow α) : α := c.val

/-- Model of `Cow::into_owned`: the owned content, cloned from the
referent when the slot was borrowed. -/
def into_owned {α : Type} (c : Cow α) : α := c.val

/-- Tag of a `Cow`, as the public `Form` enumeration. -/
def form {α : Type} : Cow α → Form
  | .borrowed _ => Form.Borrowed
  | .owned _ => Form.Owned

end Cow

variable {K V : Type} [DecidableEq K]

/-- Model of `HashMap::get` on the backing table: first slot whose stored
key dereferences to the probe key. -/
def lookupCow : List (Cow K × Cow V) → K → Option (Cow V)
  | [], _ => none
  | (k0, v0) :: rest, k => if k0.val = k then some v0 else lookupCow rest k

/-- Model of `HashMap::insert` on the backing table: if a slot with an
equal key exists, its value is replaced (the stored key is kept) and the
old value is returned; otherwise a fresh slot is added and `none` is
returned. -/
def insertInner : List (Cow K × Cow V) → Cow K → Cow V → Option (Cow V) × List (Cow K × Cow V)
  | [], k, v => (none, [(k, v)])
  | (k0, v0) :: rest, k, v =>
    if k0.val = k.val then
      (some v0, (k0, v) :: rest)
    else
      let r := insertInner rest k v
      (r.1, (k0, v0) :: r.2)

/-- Model of the in-place write `*val = Cow::Owned(v.to_owned())` (and of
`Cow::to_mut`) applied to the slot that `get_mut(key)` found: the value of
the first slot with an equal key is re-tagged as owned, keeping its
content. -/
def setOwned : List (Cow K × Cow V) → K → List (Cow K × Cow V)
  | [], _ => []
  | (k0, v0) :: rest, k =>
    if k0.val = k then (k0, Cow.owned v0.val) :: rest
    else (k0, v0) :: setOwned rest k

/-- Model of collecting an iterator of pairs into a fresh `HashMap`:
repeated `insert` starting from the empty table. -/
def collectSlots (l : List (Cow K × Cow V)) : List (Cow K × Cow V) :=
  l.foldl (fun acc p => (insertInner acc p.1 p.2).2) []

/-- Per-slot transform of `borrow_fields` (source lines 326-345): every
key and value is re-expressed in borrowed form pointing at the content
already held by the source slot. -/
def borrowSlot : Cow K × Cow V → Cow K × Cow V
  | (Cow.owned key, Cow.owned v) => (Cow.borrowed key, Cow.borrowed v)
  | (Cow.borrowed key, Cow.owned v) => (Cow.borrowed key, Cow.borrowed v)
  | (Cow.owned key, Cow.borrowed v) => (Cow.borrowed key, Cow.borrowed v)
  | (Cow.borrowed key, Cow.borrowed v) => (Cow.borrowed key, Cow.borrowed v)

/-- The public container (struct `CowHashMap`, source line 18): a backing
table of copy-on-write key/value slots. -/
structure CowHashMap (K V : Type) where
  inner : List (Cow K × Cow V)
  deriving DecidableEq

namespace CowHashMap

/-- Model of `CowHashMap::new`. -/
def new : CowHashMap K V := ⟨[]⟩

/-- Model of `CowHashMap::len`. -/
def len (m : CowHashMap K V) : Nat := m.inner.length

/-- Model of `CowHashMap::is_empty`. -/
def is_empty (m : CowHashMap K V) : Bool := m.len == 0

/-- Contents of the stored keys, as exposed by `CowHashMap::keys`
(each stored `Cow` key is dereferenced via `Borrow::borrow`). -/
def keys (m : CowHashMap K V) : List K := m.inner.map (fun p => p.1.val)

/-- Model of `CowHashMap::insert_owned` (source line 124): key and value
both stored owned; a replaced value is returned via `into_owned`. -/
def insert_owned (m : CowHashMap K V) (key : K) (value : V) :
    Option V × CowHashMap K V :=
  let r := insertInner m.inner (Cow.owned key) (Cow.owned value)
  (r.1.map Cow.into_owned, ⟨r.2⟩)

/-- Model of `CowHashMap::insert_owned_borrowed_key` (source line 146):
borrowed key, owned value. -/
def insert_owned_borrowed_key (m : CowHashMap K V) (key : K) (value : V) :
    Option V × CowHashMap K V :=
  let r := insertInner m.inner (Cow.borrowed key) (Cow.owned value)
  (r.1.map Cow.into_owned, ⟨r.2⟩)

/-- Model of `CowHashMap::insert_borrowed` (source line 168): key and
value both stored borrowed. -/
def insert_borrowed (m : CowHashMap K V) (key : K) (value : V) :
    Option V × CowHashMap K V :=
  let r := insertInner m.inner (Cow.borrowed key) (Cow.borrowed value)
  (r.1.map Cow.into_owned, ⟨r.2⟩)

/-- Model of `CowHashMap::insert_borrowed_owned_key` (source line 190):
owned key, borrowed value. -/
def insert_borrowed_owned_key (m : CowHashMap K V) (key : K) (value : V) :
    Option V × CowHashMap K V :=
  let r := insertInner m.inner (Cow.owned key) (Cow.borrowed value)
  (r.1.map Cow.into_owned, ⟨r.2⟩)

/-- Model of `CowHashMap::get` (source line 209): dereference the stored
value regardless of its form. -/
def get (m : CowHashMap K V) (key : K) : Option V :=
  (lookupCow m.inner key).map Cow.as_ref

/-- Model of `CowHashMap::get_mut` (source line 240):
`self.inner.get_mut(key).map(|v| v.to_mut())`.  `Cow::to_mut` converts
the found slot to owned form in place and yields a mutable reference to
the owned content; the embedding returns that content (before any write
through the reference) together with the updated map. -/
def get_mut (m : CowHashMap K V) (key : K) : Option V × CowHashMap K V :=
  match lookupCow m.inner key with
  | none => (none, m)
  | some v => (some v.val, ⟨setOwned m.inner key⟩)

/-- Model of `CowHashMap::make_owned` (source lines 271-284): on a
borrowed slot, overwrite it with an owned clone and re-`get`; on an owned
slot, just re-`get`; absent key propagates `None` via the `?` operator. -/
def make_owned (m : CowHashMap K V) (key : K) : Option V × CowHashMap K V :=
  match lookupCow m.inner key with
  | none => (none, m)
  | some (Cow.borrowed _) =>
    let inner' := setOwned m.inner key
    ((lookupCow inner' key).map Cow.as_ref, ⟨inner'⟩)
  | some (Cow.owned _) =>
    ((lookupCow m.inner key).map Cow.as_ref, m)

/-- Model of `CowHashMap::entry_form` (source lines 298-305): the tag of
the stored value, if the key is present. -/
def entry_form (m : CowHashMap K V) (key : K) : Option Form :=
  match lookupCow m.inner key with
  | none => none
  | some (Cow.borrowed _) => some Form.Borrowed
  | some (Cow.owned _) => some Form.Owned

/-- Model of `CowHashMap::borrow_fields` (source lines 323-349): map
every slot to its fully borrowed form and collect into a fresh table. -/
def borrow_fields (m : CowHashMap K V) : CowHashMap K V :=
  ⟨collectSlots (m.inner.map borrowSlot)⟩

end CowHashMap

/-- Concrete map used to exercise the theorems: one entry in borrowed
form under key 1 and one in owned form under key 2, built through the
public insertion API. -/
def sampleMap : CowHashMap Nat Nat :=
  (((CowHashMap.new : CowHashMap Nat Nat).insert_borrowed 1 10).2.insert_owned 2 20).2

/-! Supporting lemmas about the backing table. -/

theorem cow_val_borrowed {α : Type} (v : α) : (Cow.borrowed v).val = v := rfl

theorem cow_val_owned {α : Type} (v : α) : (Cow.owned v).val = v := rfl

theorem lookup_setOwned_self (l : List (Cow K × Cow V)) (k : K) :
    lookupCow (setOwned l k) k = (lookupCow l k).map (fun v => Cow.owned v.val) := by
  induction l with
  | nil => simp [lookupCow, setOwned]
  | cons hd tl ih =>
    obtain ⟨k0, v0⟩ := hd
    by_cases h : k0.val = k
    · simp [lookupCow, setOwned, h]
    · simp [lookupCow, setOwned, h, ih]

theorem lookup_setOwned_other (l : List (Cow K × Cow V)) (k k' : K) (h : k' ≠ k) :
    lookupCow (setOwned l k') k = lookupCow l k := by
  induction l with
  | nil => simp [setOwned]
  | cons hd tl ih =>
    obtain ⟨k0, v0⟩ := hd
    by_cases h0 : k0.val = k'
    · have hk : ¬ k0.val = k := by
        rw [h0]; exact h
      simp [lookupCow, setOwned, h0, hk, h]
    · simp only [setOwned, h0, if_neg h0, lookupCow]
      by_cases hk : k0.val = k
      · simp [hk]
      · simp [hk, ih]

theorem setOwned_setOwned (l : List (Cow K × Cow V)) (k : K) :
    setOwned (setOwned l k) k = setOwned l k := by
  induction l with
  | nil => simp [setOwned]
  | cons hd tl ih =>
    obtain ⟨k0, v0⟩ := hd
    by_cases h : k0.val = k
    · rw [setOwned, if_pos h, setOwned, if_pos h]
      rfl
    · rw [setOwned, if_neg h, setOwned, if_neg h, ih]

theorem setOwned_length (l : List (Cow K × Cow V)) (k : K) :
    (setOwned l k).length = l.length := by
  induction l with
  | nil => simp [setOwned]
  | cons hd tl ih =>
    obtain ⟨k0, v0⟩ := hd
    by_cases h : k0.val = k
    · simp [setOwned, h]
    · simp [setOwned, h, ih]

theorem insertInner_fst (l : List (Cow K × Cow V)) (kc : Cow K) (vc : Cow V) :
    (insertInner l kc vc).1 = lookupCow l kc.val := by
  induction l with
  | nil => simp [insertInner, lookupCow]
  | cons hd tl ih =>
    obtain ⟨k0, v0⟩ := hd
    by_cases h : k0.val = kc.val
    · simp [insertInner, lookupCow, h]
    · simp [insertInner, lookupCow, h, ih]

theorem lookup_insertInner_self (l : List (Cow K × Cow V)) (kc : Cow K) (vc : Cow V) :
    lookupCow (insertInner l kc vc).2 kc.val = some vc := by
  induction l with
  | nil => simp [insertInner, lookupCow]
  | cons hd tl ih =>
    obtain ⟨k0, v0⟩ := hd
    by_cases h : k0.val = kc.val
    · simp [insertInner, lookupCow, h]
    · simp [insertInner, lookupCow, h, ih]

theorem lookup_insertInner_other (l : List (Cow K × Cow V)) (kc : Cow K) (vc : Cow V)
    (k : K) (h : kc.val ≠ k) :
    lookupCow (insertInner l kc vc).2 k = lookupCow l k := by
  induction l with
  | nil => simp [insertInner, lookupCow, fun hh => h hh]
  | cons hd tl ih =>
    obtain ⟨k0, v0⟩ := hd
    by_cases h0 : k0.val = kc.val
    · have hk : ¬ k0.val = k := by
        rw [h0]; exact h
      simp [insertInner, lookupCow, h0, hk, h]
    · simp only [insertInner, if_neg h0, lookupCow]
      by_cases hk : k0.val = k
      · simp [hk]
      · simp [hk, ih]

theorem insertInner_length (l : List (Cow K × Cow V)) (kc : Cow K) (vc : Cow V) :
    (insertInner l kc vc).2.length =
      if (lookupCow l kc.val).isSome then l.length else l.length + 1 := by
  induction l with
  | nil => simp [insertInner, lookupCow]
  | cons hd tl ih =>
    obtain ⟨k0, v0⟩ := hd
    by_cases h : k0.val = kc.val
    · simp [insertInner, lookupCow, h]
    · simp only [insertInner, if_neg h, lookupCow, List.length_cons, ih]
      by_cases hs : (lookupCow tl kc.val).isSome
      · simp [hs]
      · simp [hs]

theorem insertInner_keys_of_mem (l : List (Cow K × Cow V)) (kc : Cow K) (vc : Cow V)
    (h : (lookupCow l kc.val).isSome) :
    ((insertInner l kc vc).2).map Prod.fst = l.map Prod.fst := by
  induction l with
  | nil => simp [lookupCow] at h
  | cons hd tl ih =>
    obtain ⟨k0, v0⟩ := hd
    by_cases h0 : k0.val = kc.val
    · simp [insertInner, h0]
    · simp only [lookupCow, if_neg h0, Option.isSome] at h
      simp [insertInner, h0, ih h]

theorem insertInner_not_mem (l : List (Cow K × Cow V)) (kc : Cow K) (vc : Cow V)
    (h : lookupCow l kc.val = none) :
    insertInner l kc vc = (none, l ++ [(kc, vc)]) := by
  induction l with
  | nil => simp [insertInner]
  | cons hd tl ih =>
    obtain ⟨k0, v0⟩ := hd
    by_cases h0 : k0.val = kc.val
    · simp [lookupCow, h0] at h
    · simp only [lookupCow, if_neg h0] at h
      simp [insertInner, h0, ih h]

theorem lookup_eq_none_iff (l : List (Cow K × Cow V)) (k : K) :
    lookupCow l k = none ↔ k ∉ l.map (fun p => p.1.val) := by
  induction l with
  | nil => simp [lookupCow]
  | cons hd tl ih =>
    obtain ⟨k0, v0⟩ := hd
    by_cases h : k0.val = k
    · simp [lookupCow, h]
    · have hne : ¬ k = k0.val := fun hh => h hh.symm
      simp [lookupCow, h, ih, hne]

theorem collect_go (l : List (Cow K × Cow V)) :
    ∀ acc, ((acc ++ l).map (fun p => p.1.val)).Nodup →
      l.foldl (fun a p => (insertInner a p.1 p.2).2) acc = acc ++ l := by
  induction l with
  | nil =>
    intro acc _
    simp
  | cons hd tl ih =>
    intro acc h
    obtain ⟨kc, vc⟩ := hd
    have hmem : kc.val ∉ acc.map (fun p => p.1.val) := by
      intro hm
      rw [List.map_append] at h
      exact (List.nodup_append.mp h).2.2 hm (by simp)
    have hnone : lookupCow acc kc.val = none := (lookup_eq_none_iff acc kc.val).mpr hmem
    have h' : (((acc ++ [(kc, vc)]) ++ tl).map (fun p => p.1.val)).Nodup := by
      simpa using h
    rw [List.foldl_cons]
    simp only [insertInner_not_mem acc kc vc hnone]
    rw [ih _ h']
    simp

theorem collectSlots_eq_self (l : List (Cow K × Cow V))
    (h : (l.map (fun p => p.1.val)).Nodup) : collectSlots l = l := by
  have hgo := collect_go l [] (by simpa using h)
  simpa [collectSlots] using hgo

omit [DecidableEq K] in
theorem borrowSlot_eq (p : Cow K × Cow V) :
    borrowSlot p = (Cow.borrowed p.1.val, Cow.borrowed p.2.val) := by
  rcases p with ⟨k | k, v | v⟩ <;> rfl

theorem lookup_map_borrowSlot (l : List (Cow K × Cow V)) (k : K) :
    lookupCow (l.map borrowSlot) k
      = (lookupCow l k).map (fun v => Cow.borrowed v.val) := by
  induction l with
  | nil => simp [lookupCow]
  | cons hd tl ih =>
    obtain ⟨k0, v0⟩ := hd
    rw [List.map_cons, borrowSlot_eq]
    by_cases h : k0.val = k
    · simp [lookupCow, cow_val_borrowed, h]
    · simp [lookupCow, cow_val_borrowed, h, ih]

omit [DecidableEq K] in
theorem keys_map_borrowSlot (l : List (Cow K × Cow V)) :
    (l.map borrowSlot).map (fun p => p.1.val) = l.map (fun p => p.1.val) := by
  induction l with
  | nil => rfl
  | cons hd tl ih =>
    rw [List.map_cons, borrowSlot_eq, List.map_cons, ih]
    simp [cow_val_borrowed]

theorem cow_as_ref_borrowed {α : Type} (v : α) : (Cow.borrowed v).as_ref = v := rfl

theorem cow_as_ref_owned {α : Type} (v : α) : (Cow.owned v).as_ref = v := rfl

theorem cow_form_borrowed {α : Type} (v : α) : (Cow.borrowed v).form = Form.Borrowed := rfl

theorem cow_form_owned {α : Type} (v : α) : (Cow.owned v).form = Form.Owned := rfl

theorem get_eq (m : CowHashMap K V) (k : K) :
    m.get k = (lookupCow m.inner k).map Cow.val := by
  unfold CowHashMap.get
  cases lookupCow m.inner k <;> rfl

theorem entry_form_eq (m : CowHashMap K V) (k : K) :
    m.entry_form k = (lookupCow m.inner k).map Cow.form := by
  unfold CowHashMap.entry_form
  cases hlk : lookupCow m.inner k with
  | none => rfl
  | some vc => cases vc <;> rfl

theorem entry_form_owned_inv (m : CowHashMap K V) (k : K)
    (h : m.entry_form k = some Form.Owned) :
    ∃ v, lookupCow m.inner k = some (Cow.owned v) := by
  rw [entry_form_eq] at h
  cases hlk : lookupCow m.inner k with
  | none =>
    rw [hlk] at h
    simp at h
  | some vc =>
    cases vc with
    | borrowed v =>
      rw [hlk] at h
      simp [cow_form_borrowed] at h
    | owned v => exact ⟨v, rfl⟩

theorem insert_slot_spec (m : CowHashMap K V) (kc : Cow K) (vc : Cow V) :
    (insertInner m.inner kc vc).1.map Cow.into_owned = m.get kc.val ∧
    (CowHashMap.mk (insertInner m.inner kc vc).2).get kc.val = some vc.val ∧
    (CowHashMap.mk (insertInner m.inner kc vc).2).entry_form kc.val = some vc.form ∧
    (CowHashMap.mk (insertInner m.inner kc vc).2).len
      = if (m.get kc.val).isSome then m.len else m.len + 1 := by
  have hcond : (m.get kc.val).isSome = (lookupCow m.inner kc.val).isSome := by
    rw [get_eq]
    cases lookupCow m.inner kc.val <;> rfl
  refine ⟨?_, ?_, ?_, ?_⟩
  · rw [insertInner_fst, get_eq]
    cases lookupCow m.inner kc.val <;> rfl
  · rw [get_eq]
    show (lookupCow (insertInner m.inner kc vc).2 kc.val).map Cow.val = some vc.val
    rw [lookup_insertInner_self]
    rfl
  · rw [entry_form_eq]
    show (lookupCow (insertInner m.inner kc vc).2 kc.val).map Cow.form = some vc.form
    rw [lookup_insertInner_self]
    rfl
  · show (insertInner m.inner kc vc).2.length = _
    rw [insertInner_length, hcond]
    rfl

theorem entry_form_insert_other (m : CowHashMap K V) (k : K) (kc : Cow K) (vc : Cow V)
    (h : kc.val ≠ k) :
    (CowHashMap.mk (insertInner m.inner kc vc).2).entry_form k = m.entry_form k := by
  rw [entry_form_eq, entry_form_eq]
  show (lookupCow (insertInner m.inner kc vc).2 k).map Cow.form = _
  rw [lookup_insertInner_other m.inner kc vc k h]

theorem borrow_fields_inner (m : CowHashMap K V) (h : m.keys.Nodup) :
    (m.borrow_fields).inner = m.inner.map borrowSlot := by
  show collectSlots (m.inner.map borrowSlot) = m.inner.map borrowSlot
  apply collectSlots_eq_self
  rw [keys_map_borrowSlot]
  exact h

/-! Claim theorems. -/

/-- C1: for every map with pairwise-distinct stored keys, borrow_fields
yields a map of the same length whose get results agree with the source
at every key and whose every present entry reports Form Borrowed.  The
source map is left completely unmodified: borrow_fields takes the
receiver by shared reference in the source and is a pure function of it
in the embedding, so no observation on the source (get, entry_form, len)
can change. -/
theorem borrow_fields_spec (m : CowHashMap K V) (h : m.keys.Nodup) :
    (m.borrow_fields).len = m.len ∧
    (∀ k, (m.borrow_fields).get k = m.get k) ∧
    (∀ k, (m.get k).isSome = true →
      (m.borrow_fields).entry_form k = some Form.Borrowed) := by
  have hi := borrow_fields_inner m h
  refine ⟨?_, ?_, ?_⟩
  · show (m.borrow_fields).inner.length = m.inner.length
    rw [hi, List.length_map]
  · intro k
    rw [get_eq, get_eq, hi, lookup_map_borrowSlot]
    cases lookupCow m.inner k <;> rfl
  · intro k hk
    rw [get_eq] at hk
    rw [entry_form_eq]
    show (lookupCow (m.borrow_fields).inner k).map Cow.form = some Form.Borrowed
    rw [hi, lookup_map_borrowSlot]
    cases hlk : lookupCow m.inner k with
    | none =>
      rw [hlk] at hk
      simp at hk
    | some vc => rfl

/-- Witness for C1 at the concrete sample map. -/
theorem borrow_fields_spec_witness :
    sampleMap.keys.Nodup ∧
    ((sampleMap.borrow_fields).len = sampleMap.len ∧
     (∀ k, (sampleMap.borrow_fields).get k = sampleMap.get k) ∧
     (∀ k, (sampleMap.get k).isSome = true →
       (sampleMap.borrow_fields).entry_form k = some Form.Borrowed)) :=
  ⟨by decide, borrow_fields_spec sampleMap (by decide)⟩

/-- C2: every insert variant returns the value previously stored at the
key, materialized to owned content (and None when the key was absent),
afterwards the slot holds the new value, retrievable by get, in the form
the variant requests, and the map grows by one slot exactly when the key
was absent. -/
theorem insert_variants_spec (m : CowHashMap K V) (k : K) (v : V) :
    ((m.insert_owned k v).1 = m.get k ∧
      (m.insert_owned k v).2.get k = some v ∧
      (m.insert_owned k v).2.entry_form k = some Form.Owned ∧
      (m.insert_owned k v).2.len = if (m.get k).isSome then m.len else m.len + 1) ∧
    ((m.insert_owned_borrowed_key k v).1 = m.get k ∧
      (m.insert_owned_borrowed_key k v).2.get k = some v ∧
      (m.insert_owned_borrowed_key k v).2.entry_form k = some Form.Owned ∧
      (m.insert_owned_borrowed_key k v).2.len
        = if (m.get k).isSome then m.len else m.len + 1) ∧
    ((m.insert_borrowed k v).1 = m.get k ∧
      (m.insert_borrowed k v).2.get k = some v ∧
      (m.insert_borrowed k v).2.entry_form k = some Form.Borrowed ∧
      (m.insert_borrowed k v).2.len = if (m.get k).isSome then m.len else m.len + 1) ∧
    ((m.insert_borrowed_owned_key k v).1 = m.get k ∧
      (m.insert_borrowed_owned_key k v).2.get k = some v ∧
      (m.insert_borrowed_owned_key k v).2.entry_form k = some Form.Borrowed ∧
      (m.insert_borrowed_owned_key k v).2.len
        = if (m.get k).isSome then m.len else m.len + 1) :=
  ⟨insert_slot_spec m (Cow.owned k) (Cow.owned v),
   insert_slot_spec m (Cow.borrowed k) (Cow.owned v),
   insert_slot_spec m (Cow.borrowed k) (Cow.borrowed v),
   insert_slot_spec m (Cow.owned k) (Cow.borrowed v)⟩

/-- C3: after get_mut on a present key the entry reports Form Owned, and
this is stable: a further get_mut on the same key returns the same
content and leaves the map exactly as it was after the first call. -/
theorem get_mut_owns_entry (m : CowHashMap K V) (k : K)
    (h : (m.get k).isSome = true) :
    (m.get_mut k).2.entry_form k = some Form.Owned ∧
    (m.get_mut k).2.get_mut k = ((m.get_mut k).1, (m.get_mut k).2) := by
  rw [get_eq] at h
  cases hlk : lookupCow m.inner k with
  | none =>
    rw [hlk] at h
    simp at h
  | some vcow =>
    have hgm : m.get_mut k = (some vcow.val, ⟨setOwned m.inner k⟩) := by
      unfold CowHashMap.get_mut
      rw [hlk]
    have hlk2 : lookupCow (setOwned m.inner k) k = some (Cow.owned vcow.val) := by
      rw [lookup_setOwned_self, hlk]
      rfl
    rw [hgm]
    refine ⟨?_, ?_⟩
    · rw [entry_form_eq]
      show (lookupCow (setOwned m.inner k) k).map Cow.form = some Form.Owned
      rw [hlk2]
      rfl
    · show CowHashMap.get_mut ⟨setOwned m.inner k⟩ k = _
      unfold CowHashMap.get_mut
      show (match lookupCow (setOwned m.inner k) k with
            | none => ((none : Option V), (⟨setOwned m.inner k⟩ : CowHashMap K V))
            | some v => (some v.val, ⟨setOwned (setOwned m.inner k) k⟩)) = _
      rw [hlk2, setOwned_setOwned]
      rfl

/-- Witness for C3 at the concrete sample map: key 1 is stored in
borrowed form there. -/
theorem get_mut_owns_entry_witness :
    (sampleMap.get 1).isSome = true ∧
    ((sampleMap.get_mut 1).2.entry_form 1 = some Form.Owned ∧
     (sampleMap.get_mut 1).2.get_mut 1
       = ((sampleMap.get_mut 1).1, (sampleMap.get_mut 1).2)) :=
  ⟨by decide, get_mut_owns_entry sampleMap 1 (by decide)⟩

/-- C4: make_owned is idempotent on a present key: the entry reports
Form Owned after the first call, and a second call returns the same
content and leaves the map exactly as the first call left it, so any
number n of calls with n at least 1 returns the same content every time
and the form stays Owned. -/
theorem make_owned_idempotent (m : CowHashMap K V) (k : K)
    (h : (m.get k).isSome = true) :
    (m.make_owned k).2.entry_form k = some Form.Owned ∧
    (m.make_owned k).2.make_owned k = ((m.make_owned k).1, (m.make_owned k).2) := by
  rw [get_eq] at h
  cases hlk : lookupCow m.inner k with
  | none =>
    rw [hlk] at h
    simp at h
  | some vcow =>
    cases vcow with
    | borrowed v =>
      have hlk2 : lookupCow (setOwned m.inner k) k = some (Cow.owned v) := by
        rw [lookup_setOwned_self, hlk]
        rfl
      have hmo : m.make_owned k
          = ((lookupCow (setOwned m.inner k) k).map Cow.as_ref, ⟨setOwned m.inner k⟩) := by
        unfold CowHashMap.make_owned
        rw [hlk]
      rw [hmo, hlk2]
      refine ⟨?_, ?_⟩
      · rw [entry_form_eq]
        show (lookupCow (setOwned m.inner k) k).map Cow.form = some Form.Owned
        rw [hlk2]
        rfl
      · show CowHashMap.make_owned ⟨setOwned m.inner k⟩ k = _
        unfold CowHashMap.make_owned
        show (match lookupCow (setOwned m.inner k) k with
              | none => ((none : Option V), (⟨setOwned m.inner k⟩ : CowHashMap K V))
              | some (Cow.borrowed _) =>
                ((lookupCow (setOwned (setOwned m.inner k) k) k).map Cow.as_ref,
                  ⟨setOwned (setOwned m.inner k) k⟩)
              | some (Cow.owned _) =>
                ((lookupCow (setOwned m.inner k) k).map Cow.as_ref,
                  ⟨setOwned m.inner k⟩)) = _

        rw [hlk2]
    | owned v =>
      have hmo : m.make_owned k = ((lookupCow m.inner k).map Cow.as_ref, m) := by
        unfold CowHashMap.make_owned
        rw [hlk]
      rw [hmo, hlk]
      refine ⟨?_, ?_⟩
      · rw [entry_form_eq, hlk]
        rfl
      · unfold CowHashMap.make_owned
        rw [hlk]

/-- Witness for C4 at the concrete sample map, on the borrowed entry. -/
theorem make_owned_idempotent_witness :
    (sampleMap.get 1).isSome = true ∧
    ((sampleMap.make_owned 1).2.entry_form 1 = some Form.Owned ∧
     (sampleMap.make_owned 1).2.make_owned 1
       = ((sampleMap.make_owned 1).1, (sampleMap.make_owned 1).2)) :=
  ⟨by decide, make_owned_idempotent sampleMap 1 (by decide)⟩

/-- C5: inserting an owned value and then reading the same key returns
exactly that value. -/
theorem insert_owned_get_roundtrip (m : CowHashMap K V) (k : K) (v : V) :
    (m.insert_owned k v).2.get k = some v :=
  (insert_slot_spec m (Cow.owned k) (Cow.owned v)).2.1

/-- C6: the Cow state machine.  Every stored slot is in exactly one of
the two states Borrowed and Owned, and on a live entry the only in-place
transition is Borrowed to Owned: get_mut and make_owned on any key never
turn an Owned entry back into a Borrowed one, and an insert under a
different key (the slot is replaced wholesale by an insert under the same
key, and borrow_fields builds a new map, so both are outside the claim)
leaves the entry form untouched. -/
theorem cow_state_machine :
    (∀ c : Cow V, (c.form = Form.Borrowed ∧ c.form ≠ Form.Owned)
        ∨ (c.form = Form.Owned ∧ c.form ≠ Form.Borrowed)) ∧
    (∀ (m : CowHashMap K V) (k k' : K),
        m.entry_form k = some Form.Owned →
        (m.get_mut k').2.entry_form k = some Form.Owned) ∧
    (∀ (m : CowHashMap K V) (k k' : K),
        m.entry_form k = some Form.Owned →
        (m.make_owned k').2.entry_form k = some Form.Owned) ∧
    (∀ (m : CowHashMap K V) (k k' : K) (v : V), k' ≠ k →
        (m.insert_owned k' v).2.entry_form k = m.entry_form k) ∧
    (∀ (m : CowHashMap K V) (k k' : K) (v : V), k' ≠ k →
        (m.insert_owned_borrowed_key k' v).2.entry_form k = m.entry_form k) ∧
    (∀ (m : CowHashMap K V) (k k' : K) (v : V), k' ≠ k →
        (m.insert_borrowed k' v).2.entry_form k = m.entry_form k) ∧
    (∀ (m : CowHashMap K V) (k k' : K) (v : V), k' ≠ k →
        (m.insert_borrowed_owned_key k' v).2.entry_form k = m.entry_form k) := by
  have hset : ∀ (m : CowHashMap K V) (k k' : K),
      m.entry_form k = some Form.Owned →
      (CowHashMap.mk (setOwned m.inner k')).entry_form k = some Form.Owned := by
    intro m k k' h
    by_cases hk : k' = k
    · subst hk
      obtain ⟨v, hlk⟩ := entry_form_owned_inv m k' h
      rw [entry_form_eq]
      show (lookupCow (setOwned m.inner k') k').map Cow.form = some Form.Owned
      rw [lookup_setOwned_self, hlk]
      rfl
    · rw [entry_form_eq]
      show (lookupCow (setOwned m.inner k') k).map Cow.form = some Form.Owned
      rw [lookup_setOwned_other m.inner k k' hk, ← entry_form_eq, h]
  refine ⟨?_, ?_, ?_, ?_, ?_, ?_, ?_⟩
  · intro c
    cases c with
    | borrowed v => exact Or.inl ⟨rfl, nofun⟩
    | owned v => exact Or.inr ⟨rfl, nofun⟩
  · intro m k k' h
    unfold CowHashMap.get_mut
    cases hlk : lookupCow m.inner k' with
    | none => exact h
    | some vc => exact hset m k k' h
  · intro m k k' h
    unfold CowHashMap.make_owned
    cases hlk : lookupCow m.inner k' with
    | none => exact h
    | some vc =>
      cases vc with
      | borrowed v => exact hset m k k' h
      | owned v => exact h
  · intro m k k' v hne
    exact entry_form_insert_other m k (Cow.owned k') (Cow.owned v) hne
  · intro m k k' v hne
    exact entry_form_insert_other m k (Cow.borrowed k') (Cow.owned v) hne
  · intro m k k' v hne
    exact entry_form_insert_other m k (Cow.borrowed k') (Cow.borrowed v) hne
  · intro m k k' v hne
    exact entry_form_insert_other m k (Cow.owned k') (Cow.borrowed v) hne

/-- Witness for C6: the owned entry at key 2 of the sample map keeps its
Owned form under get_mut and make_owned of the borrowed key 1 and under
an insert of a fresh borrowed entry. -/
theorem cow_state_machine_witness :
    (sampleMap.get_mut 1).2.entry_form 2 = some Form.Owned ∧
    (sampleMap.make_owned 1).2.entry_form 2 = some Form.Owned ∧
    (sampleMap.insert_borrowed 3 30).2.entry_form 2 = sampleMap.entry_form 2 :=
  ⟨(@cow_state_machine Nat Nat _).2.1 sampleMap 2 1 (by decide),
   (@cow_state_machine Nat Nat _).2.2.1 sampleMap 2 1 (by decide),
   (@cow_state_machine Nat Nat _).2.2.2.2.2.1 sampleMap 2 3 30 (by decide)⟩

/-- C7: when an insert variant hits a key that is already present, the
stored key representation (the full list of stored key slots, forms
included) is unchanged: the first-inserted key is retained and only the
value slot is overwritten. -/
theorem insert_existing_keeps_stored_key (m : CowHashMap K V) (k : K) (v : V)
    (h : (m.get k).isSome = true) :
    (m.insert_owned k v).2.inner.map Prod.fst = m.inner.map Prod.fst ∧
    (m.insert_owned_borrowed_key k v).2.inner.map Prod.fst = m.inner.map Prod.fst ∧
    (m.insert_borrowed k v).2.inner.map Prod.fst = m.inner.map Prod.fst ∧
    (m.insert_borrowed_owned_key k v).2.inner.map Prod.fst = m.inner.map Prod.fst := by
  rw [get_eq] at h
  have hs : (lookupCow m.inner k).isSome = true := by
    cases hx : lookupCow m.inner k with
    | none =>
      rw [hx] at h
      simp at h
    | some vc => rfl
  exact ⟨insertInner_keys_of_mem m.inner (Cow.owned k) (Cow.owned v) hs,
         insertInner_keys_of_mem m.inner (Cow.borrowed k) (Cow.owned v) hs,
         insertInner_keys_of_mem m.inner (Cow.borrowed k) (Cow.borrowed v) hs,
         insertInner_keys_of_mem m.inner (Cow.owned k) (Cow.borrowed v) hs⟩

/-- Witness for C7: replacing the borrowed-key entry 1 of the sample map
keeps its stored key slots. -/
theorem insert_existing_keeps_stored_key_witness :
    (sampleMap.get 1).isSome = true ∧
    ((sampleMap.insert_owned 1 99).2.inner.map Prod.fst
        = sampleMap.inner.map Prod.fst ∧
     (sampleMap.insert_owned_borrowed_key 1 99).2.inner.map Prod.fst
        = sampleMap.inner.map Prod.fst ∧
     (sampleMap.insert_borrowed 1 99).2.inner.map Prod.fst
        = sampleMap.inner.map Prod.fst ∧
     (sampleMap.insert_borrowed_owned_key 1 99).2.inner.map Prod.fst
        = sampleMap.inner.map Prod.fst) :=
  ⟨by decide, insert_existing_keeps_stored_key sampleMap 1 99 (by decide)⟩

/-- C8: looking up an absent key is an explicit empty result, not an
error: get, get_mut, make_owned and entry_form all return None. -/
theorem absent_key_lookups_return_none (m : CowHashMap K V) (k : K)
    (h : k ∉ m.keys) :
    m.get k = none ∧ (m.get_mut k).1 = none ∧ (m.make_owned k).1 = none ∧
    m.entry_form k = none := by
  have hlk : lookupCow m.inner k = none := (lookup_eq_none_iff m.inner k).mpr h
  refine ⟨?_, ?_, ?_, ?_⟩
  · rw [get_eq, hlk]
    rfl
  · unfold CowHashMap.get_mut
    rw [hlk]
  · unfold CowHashMap.make_owned
    rw [hlk]
  · rw [entry_form_eq, hlk]
    rfl

/-- Witness for C8: key 3 is absent from the sample map. -/
theorem absent_key_lookups_return_none_witness :
    (3 ∉ sampleMap.keys) ∧
    (sampleMap.get 3 = none ∧ (sampleMap.get_mut 3).1 = none ∧
     (sampleMap.make_owned 3).1 = none ∧ sampleMap.entry_form 3 = none) :=
  ⟨by decide, absent_key_lookups_return_none sampleMap 3 (by decide)⟩

/-- C9: on an absent key, get_mut and make_owned fail atomically: they
return None and hand back the map unchanged, so no entry is created, the
length is unchanged and every existing entry keeps its form and
content. -/
theorem absent_key_leaves_map_unchanged (m : CowHashMap K V) (k : K)
    (h : k ∉ m.keys) :
    m.get_mut k = (none, m) ∧ m.make_owned k = (none, m) := by
  have hlk : lookupCow m.inner k = none := (lookup_eq_none_iff m.inner k).mpr h
  constructor
  · unfold CowHashMap.get_mut
    rw [hlk]
  · unfold CowHashMap.make_owned
    rw [hlk]

/-- Witness for C9 at the concrete sample map and the absent key 3. -/
theorem absent_key_leaves_map_unchanged_witness :
    (3 ∉ sampleMap.keys) ∧
    (sampleMap.get_mut 3 = (none, sampleMap) ∧
     sampleMap.make_owned 3 = (none, sampleMap)) :=
  ⟨by decide, absent_key_leaves_map_unchanged sampleMap 3 (by decide)⟩

/-- C10: materialization preserves content on a present key: make_owned
returns exactly what get returned before the call, get after the call
still returns it, and get_mut (before any write through the returned
reference) yields that same content, both as its result and through a
subsequent get: the Borrowed-to-Owned transition changes only the form,
never the content. -/
theorem materialization_preserves_content (m : CowHashMap K V) (k : K)
    (h : (m.get k).isSome = true) :
    (m.make_owned k).1 = m.get k ∧
    (m.make_owned k).2.get k = m.get k ∧
    (m.get_mut k).1 = m.get k ∧
    (m.get_mut k).2.get k = m.get k := by
  rw [get_eq] at h
  cases hlk : lookupCow m.inner k with
  | none =>
    rw [hlk] at h
    simp at h
  | some vcow =>
    have hget : m.get k = some vcow.val := by
      rw [get_eq, hlk]
      rfl
    have hlk2 : lookupCow (setOwned m.inner k) k = some (Cow.owned vcow.val) := by
      rw [lookup_setOwned_self, hlk]
      rfl
    have hgetset : (CowHashMap.mk (setOwned m.inner k)).get k = some vcow.val := by
      rw [get_eq]
      show (lookupCow (setOwned m.inner k) k).map Cow.val = some vcow.val
      rw [hlk2]
      rfl
    have hgm : m.get_mut k = (some vcow.val, ⟨setOwned m.inner k⟩) := by
      unfold CowHashMap.get_mut
      rw [hlk]
    have hmk : (m.make_owned k).1 = m.get k ∧ (m.make_owned k).2.get k = m.get k := by
      cases vcow with
      | borrowed v =>
        have hmo : m.make_owned k
            = ((lookupCow (setOwned m.inner k) k).map Cow.as_ref,
               ⟨setOwned m.inner k⟩) := by
          unfold CowHashMap.make_owned
          rw [hlk]
        constructor
        · rw [hmo, hlk2, hget]
          rfl
        · rw [hmo, hget]
          exact hgetset
      | owned v =>
        have hmo : m.make_owned k = ((lookupCow m.inner k).map Cow.as_ref, m) := by
          unfold CowHashMap.make_owned
          rw [hlk]
        constructor
        · rw [hmo, hlk, hget]
          rfl
        · rw [hmo]
    refine ⟨hmk.1, hmk.2, ?_, ?_⟩
    · rw [hgm, hget]
    · rw [hgm, hget]
      exact hgetset

/-- Witness for C10 at the concrete sample map, on the borrowed entry. -/
theorem materialization_preserves_content_witness :
    (sampleMap.get 1).isSome = true ∧
    ((sampleMap.make_owned 1).1 = sampleMap.get 1 ∧
     (sampleMap.make_owned 1).2.get 1 = sampleMap.get 1 ∧
     (sampleMap.get_mut 1).1 = sampleMap.get 1 ∧
     (sampleMap.get_mut 1).2.get 1 = sampleMap.get 1) :=
  ⟨by decide, materialization_preserves_content sampleMap 1 (by decide)⟩

end Hashcow
